import Mathlib

/-!
A shallow embedding of the `cli/responder` package (file
`cli/responder/response.go` of the `nickwells/cli.mod` repository).

Modelling conventions:

* A Go `rune` is a Unicode code point, embedded as a plain `Nat`.
* A Go `string` is embedded as its sequence of runes, `Str := List Nat`.
  `strOf` converts a Lean string literal to this representation.
* The functions `unicode.IsSpace`, `unicode.IsUpper`, `unicode.ToLower` and
  `unicode.ToUpper` from the Go standard library are modelled faithfully on the
  ASCII range (all characters appearing in the repository and its examples
  are ASCII); outside that range the classification functions return `false`
  and the case mappings are the identity.
* The Go map `map[rune]string` is embedded as an association list
  `List (Nat × Str)`; the structural key-uniqueness of the map becomes an
  explicit `Nodup` hypothesis where it matters.
* The terminal input stream read by `bufio.Reader.ReadRune` is embedded as a
  `List ReadEv` of read events: a successfully read rune, a non-EOF read
  error, or end-of-input.  Reading from an exhausted list also yields
  end-of-input (`io.EOF`), as a `bufio.Reader` does.
* Output is embedded as a trace of events (`OutEv`), one per print call of
  the source: the indent written by `fmt.Print(prefix)`, the text written by
  `R.PrintPrompt`, the help text written by `R.PrintHelpIndent` (whose exact
  rendering is delegated to the external `twrap` library and is therefore
  kept abstract, recording only the indent it was given), and lines written
  to `os.Stderr`.
* The error values `io.EOF`, a generic read error, and the
  `fmt.Errorf("Bad response: %c", resp)` error of `getResp` are the three
  constructors of `Err`.  A Go `error` result is `Option Err` (`none` = nil).
* The configuration errors returned by `New` and the option setters are the
  constructors of `ConfigErr`, one per `fmt.Errorf` site of the source (the
  message texts themselves are presentation and are abstracted).
* The fields `fd` and `rdr` of the Go struct `R` are I/O handles (the input
  stream is passed explicitly instead) and the raw-terminal-mode handling of
  `getRune` (`term.MakeRaw`/`term.Restore`) is a device-level side effect
  with no influence on the values computed; both are omitted from the
  embedded structure.
-/

/-- A Go `string`, embedded as its sequence of runes.  A Go `rune` (a
Unicode code point) is embedded as a plain `Nat` throughout. -/
abbrev Str := List Nat

/-- Convert a Lean string literal to the rune-sequence embedding. -/
def strOf (s : String) : Str := s.toList.map Char.toNat

/-- The reserved help rune: source constant `helpRune = '?'` (code point 63). -/
def helpRune : Nat := 63

/-- `unicode.ReplacementChar` (U+FFFD), returned alongside every error. -/
def replacementChar : Nat := 65533

/-- Go `unicode.IsSpace`, modelled on the ASCII range: tab (9), LF (10),
vertical tab (11), form feed (12), CR (13) and space (32). -/
def isSpace (c : Nat) : Bool :=
  decide (c = 9 ∨ c = 10 ∨ c = 11 ∨ c = 12 ∨ c = 13 ∨ c = 32)

/-- Go `unicode.IsUpper`, modelled on the ASCII range: the runes 65–90. -/
def isUpper (c : Nat) : Bool :=
  decide (65 ≤ c ∧ c ≤ 90)

/-- Go `unicode.ToLower`, modelled on the ASCII range: uppercase ASCII
letters are shifted by 32, everything else is unchanged. -/
def toLower (c : Nat) : Nat :=
  if 65 ≤ c ∧ c ≤ 90 then c + 32 else c

/-- Go `unicode.ToUpper`, modelled on the ASCII range: lowercase ASCII
letters are shifted by 32, everything else is unchanged. -/
def toUpper (c : Nat) : Nat :=
  if 97 ≤ c ∧ c ≤ 122 then c - 32 else c

/-- The responder configuration: the struct `R` of the source, minus the two
I/O handle fields `fd` and `rdr` (see the module docstring). -/
structure R where
  prompt : Str
  validResps : List (Nat × Str)
  hasDflt : Bool
  dflt : Nat
  maxReprompts : Int
  limitPrompts : Bool
  indent : Int
  indentFirst : Int
deriving DecidableEq, Repr

/-- The keys of the embedded response map. -/
def keysOf (m : List (Nat × Str)) : List Nat := m.map Prod.fst

/-- Go map membership `_, ok := m[k]` for the embedded response map. -/
def hasKey (m : List (Nat × Str)) (k : Nat) : Bool :=
  m.any (fun p => p.1 == k)

/-- The configuration errors of the source, one constructor per
`fmt.Errorf` site in `New`, `SetDefault`, `SetMaxReprompts`, `SetIndents`. -/
inductive ConfigErr where
  | tooFewResponses
  | uppercaseResponse (c : Nat)
  | whitespaceResponse
  | helpRuneResponse
  | defaultNotValid (c : Nat)
  | maxRepromptsNotPositive (n : Int)
  | negativeIndent (n : Int)
  | negativeFirstIndent (n : Int)
deriving DecidableEq, Repr

/-- The option setters of the package (`RespOptFunc` values produced by
`SetDefault`, `SetMaxReprompts` and `SetIndents` — the three exported
option constructors of the source). -/
inductive RespOpt where
  | setDefault (d : Nat)
  | setMaxReprompts (maximum : Int)
  | setIndents (indentFirst indent : Int)
deriving DecidableEq, Repr

/-- Apply one option setter, as the closures returned by `SetDefault`,
`SetMaxReprompts` and `SetIndents` do (the `*R` mutation becomes a
functional update). -/
def applyOpt (o : RespOpt) (r : R) : Except ConfigErr R :=
  match o with
  | .setDefault d =>
      if hasKey r.validResps d then
        .ok { r with dflt := d, hasDflt := true }
      else
        .error (.defaultNotValid d)
  | .setMaxReprompts maximum =>
      if maximum ≤ 0 then
        .error (.maxRepromptsNotPositive maximum)
      else
        .ok { r with maxReprompts := maximum, limitPrompts := true }
  | .setIndents indentFirst indent =>
      if indent < 0 then
        .error (.negativeIndent indent)
      else if indentFirst < 0 then
        .error (.negativeFirstIndent indentFirst)
      else
        .ok { r with indent := indent, indentFirst := indentFirst }

/-- The loop `for _, o := range opts { ... }` of `New`: apply the option
setters in order, stopping at the first error. -/
def applyOpts : List RespOpt → R → Except ConfigErr R
  | [], r => .ok r
  | o :: os, r =>
      match applyOpt o r with
      | .error e => .error e
      | .ok r2 => applyOpts os r2

/-- The key-validation loop `for v := range responses { ... }` of `New`:
reject uppercase keys, whitespace keys, and the help rune. -/
def checkKeys : List (Nat × Str) → Option ConfigErr
  | [] => none
  | (v, _) :: rest =>
      if isUpper v then some (.uppercaseResponse v)
      else if isSpace v then some .whitespaceResponse
      else if v = helpRune then some .helpRuneResponse
      else checkKeys rest

/-- The constructor `New` of the source: zero-initialise the struct, reject
too-few responses and bad keys, install the response map, then apply the
option setters in order. -/
def New (prompt : Str) (responses : List (Nat × Str)) (opts : List RespOpt) :
    Except ConfigErr R :=
  let r : R :=
    { prompt := prompt, validResps := [], hasDflt := false, dflt := 0,
      maxReprompts := 0, limitPrompts := false, indent := 0, indentFirst := 0 }
  if responses.length ≤ 1 then
    .error .tooFewResponses
  else
    match checkKeys responses with
    | some e => .error e
    | none => applyOpts opts { r with validResps := responses }

/-- A valid configuration: exactly what `New` guarantees about every value
it returns (at least two responses, unique keys, no uppercase / whitespace /
help-rune key, any configured default is a key, any configured reprompt
limit is positive). -/
def ValidR (r : R) : Prop :=
  2 ≤ r.validResps.length ∧
  (keysOf r.validResps).Nodup ∧
  (∀ k ∈ keysOf r.validResps,
      isUpper k = false ∧ isSpace k = false ∧ k ≠ helpRune) ∧
  (r.hasDflt = true → r.dflt ∈ keysOf r.validResps) ∧
  (r.limitPrompts = true → 0 < r.maxReprompts)

instance (r : R) : Decidable (ValidR r) := by
  unfold ValidR; infer_instance

/-- The success condition of one option setter: `setDefault` needs its rune
among the keys, `setMaxReprompts` a positive limit, `setIndents` two
non-negative indents. -/
def GoodOpt (m : List (Nat × Str)) : RespOpt → Prop
  | .setDefault d => hasKey m d = true
  | .setMaxReprompts maximum => 0 < maximum
  | .setIndents indentFirst indent => 0 ≤ indentFirst ∧ 0 ≤ indent

instance (m : List (Nat × Str)) (o : RespOpt) : Decidable (GoodOpt m o) := by
  cases o <;> (unfold GoodOpt; infer_instance)

/-- `getSortedValidResponses`: the keys of the response map in ascending
order (the source extracts the keys of the map and sorts them with
`sort.Slice(keys, keys[i] < keys[j])`; any sorting algorithm yields the
same list on duplicate-free keys, here insertion sort). -/
def getSortedValidResponses (r : R) : List Nat :=
  (keysOf r.validResps).insertionSort (· ≤ ·)

/-- One step of the printing loop of `PrintValidResponses`.  The
accumulator pairs the text printed so far with the pending separator
`sep`; a rune equal to the default (when one is configured) is skipped. -/
def pvrStep (r : R) (acc : Str × Str) (c : Nat) : Str × Str :=
  if r.hasDflt && c == r.dflt then acc
  else (acc.1 ++ acc.2 ++ [c], strOf ("/"))

/-- `PrintValidResponses`: the text it writes to standard output: `(`, the
bracketed default (if any) then each remaining valid rune, slash-separated,
then the help rune and `): `. -/
def PrintValidResponses (r : R) : Str :=
  let start : Str × Str :=
    if r.hasDflt then (strOf ("(") ++ strOf ("[") ++ [r.dflt] ++ strOf ("]"), strOf ("/"))
    else (strOf ("("), [])
  let acc := (getSortedValidResponses r).foldl (pvrStep r) start
  acc.1 ++ acc.2 ++ [helpRune] ++ strOf ("): ")

/-- `PrintPrompt`: the text it writes to standard output: the prompt, then
`? `, then the valid responses. -/
def PrintPrompt (r : R) : Str :=
  r.prompt ++ strOf ("? ") ++ PrintValidResponses r

/-- One event of the embedded input stream: a successfully read rune, a
non-EOF read error, or end-of-input.  Reading from an exhausted stream also
yields end-of-input. -/
inductive ReadEv where
  | ok (c : Nat)
  | readErr (msg : Str)
  | eof
deriving DecidableEq, Repr

/-- The error values flowing out of `getRune`/`getResp`/`GetResponseIndent`:
`io.EOF`, some other read error, or the `fmt.Errorf("Bad response: %c", _)`
invalid-response error. -/
inductive Err where
  | eof
  | readErr (msg : Str)
  | badResponse (c : Nat)
deriving DecidableEq, Repr

/-- The message text of an error (Go `err.Error()`), used for the line the
loop prints to standard error. -/
def errMsg : Err → Str
  | .eof => strOf ("EOF")
  | .readErr m => m
  | .badResponse c => strOf ("Bad response: ") ++ [c]

/-- `errMsg` lifted to a Go `error` value (`none` is nil and never printed). -/
def errMsgO : Option Err → Str
  | none => []
  | some e => errMsg e

/-- `getRune` applied to one read event: the rune and error produced by
`bufio.Reader.ReadRune` (the raw-mode toggling around the read has no
effect on the values; on an error the rune from the reader is 0, discarded
by the caller). -/
def getRune (ev : ReadEv) : Nat × Option Err :=
  match ev with
  | .ok c => (c, none)
  | .readErr m => (0, some (.readErr m))
  | .eof => (0, some .eof)

/-- `getResp` applied to one read event: on a read error return the
replacement rune and the error; on a whitespace rune with a configured
default substitute the default; the help rune passes through un-folded;
anything else is lowercased and checked against the response map. -/
def getResp (r : R) (ev : ReadEv) : Nat × Option Err :=
  let read := getRune ev
  match read.2 with
  | some e => (replacementChar, some e)
  | none =>
      let resp := read.1
      if r.hasDflt && isSpace resp then (r.dflt, none)
      else if resp ≠ helpRune then
        let resp2 := toLower resp
        if hasKey r.validResps resp2 then (resp2, none)
        else (replacementChar, some (.badResponse resp2))
      else (resp, none)

/-- One event of the output trace: the indent prefix printed at the top of
each loop iteration, the prompt text, the help text (abstract, by indent —
its rendering lives in the external `twrap` library), or a line printed to
standard error (`fmt.Fprintln(os.Stderr)` is `errLine []`). -/
inductive OutEv where
  | stdout (s : Str)
  | promptOut (s : Str)
  | helpText (indent : Int)
  | errLine (s : Str)
deriving DecidableEq, Repr

/-- Everything observable about one `GetResponseIndent` call: the receiver
value on return (the source never assigns to it, which the claims make an
explicit theorem), the trace of output events, the returned rune and error,
and the final value of the attempt counter `i`. -/
structure LoopResult where
  recv : R
  events : List OutEv
  response : Nat
  err : Option Err
  attempts : Int
deriving DecidableEq, Repr

/-- The `for` loop of `GetResponseIndent`.  `i` is the attempt counter,
`pre` the indent to print before the next prompt, `spre` the indent for all
later prompts (the source sets `prefix = secondPrefix` right after printing
it).  Each iteration prints the indent and the prompt and reads one event:
on the help rune it prints the help and re-enters without touching `i`;
otherwise it increments `i` and returns on nil error or `io.EOF`, returns
when a configured reprompt limit is exceeded, and otherwise prints the
error to standard error and re-enters.  An exhausted input list reads as
end-of-input, exactly as `getResp` maps an `.eof` event. -/
def respLoop (r : R) (sec i : Int) (pre spre : Str) :
    List ReadEv → LoopResult
  | [] =>
      ⟨r, [.stdout pre, .promptOut (PrintPrompt r)],
        replacementChar, some .eof, i + 1⟩
  | ev :: rest =>
      let p := getResp r ev
      if p.1 = helpRune then
        let t := respLoop r sec i spre spre rest
        ⟨t.recv,
          .stdout pre :: .promptOut (PrintPrompt r) :: .helpText sec :: t.events,
          t.response, t.err, t.attempts⟩
      else if p.2 = none ∨ p.2 = some .eof then
        ⟨r, [.stdout pre, .promptOut (PrintPrompt r)], p.1, p.2, i + 1⟩
      else if r.limitPrompts = true ∧ r.maxReprompts < i + 1 then
        ⟨r, [.stdout pre, .promptOut (PrintPrompt r)], p.1, p.2, i + 1⟩
      else
        let t := respLoop r sec (i + 1) spre spre rest
        ⟨t.recv,
          .stdout pre :: .promptOut (PrintPrompt r) :: .errLine [] ::
            .errLine (spre ++ strOf ("    ") ++ errMsgO p.2) :: t.events,
          t.response, t.err, t.attempts⟩

/-- `strings.Repeat(" ", n)` (for the non-negative counts the package
produces; `strings.Repeat` panics on a negative count, so the model clamps). -/
def spaces (n : Int) : Str := List.replicate n.toNat 32

/-- `GetResponseIndent`: run the response loop with attempt counter 0 and
the two indent strings. -/
def GetResponseIndent (r : R) (first second : Int) (input : List ReadEv) :
    LoopResult :=
  respLoop r second 0 (spaces first) (spaces second) input

/-- `GetResponse`: `GetResponseIndent` with the configured indents. -/
def GetResponse (r : R) (input : List ReadEv) : LoopResult :=
  GetResponseIndent r r.indentFirst r.indent input

/-- Count the prompt printings in an output trace. -/
def promptCount (evs : List OutEv) : Nat :=
  evs.countP (fun e => match e with | .promptOut _ => true | _ => false)

/-- `PrintHelp` of the source prints the help text at the configured indent;
the rendering itself lives in the external `twrap` library and stays abstract. -/
def PrintHelp (r : R) : OutEv := .helpText r.indent

/-- An input rune the loop treats as invalid: not substituted by a default
(whitespace only triggers the default when one is configured), not the help
rune, and — after lowercasing — not a key of the response map. -/
def InvalidInput (r : R) (c : Nat) : Prop :=
  (r.hasDflt = true → isSpace c = false) ∧ c ≠ helpRune ∧
  hasKey r.validResps (toLower c) = false

instance (r : R) (c : Nat) : Decidable (InvalidInput r c) := by
  unfold InvalidInput; infer_instance

lemma hasKey_iff (m : List (Nat × Str)) (k : Nat) :
    hasKey m k = true ↔ k ∈ keysOf m := by
  simp [hasKey, keysOf, List.any_eq_true, List.mem_map]

lemma isUpper_false_iff (c : Nat) : isUpper c = false ↔ ¬(65 ≤ c ∧ c ≤ 90) := by
  simp [isUpper]

lemma toLower_eq_self (c : Nat) (h : isUpper c = false) : toLower c = c := by
  rw [isUpper_false_iff] at h
  unfold toLower
  simp [h]

lemma getResp_eof (r : R) : getResp r .eof = (replacementChar, some .eof) := rfl

lemma getResp_readErr (r : R) (m : Str) :
    getResp r (.readErr m) = (replacementChar, some (.readErr m)) := rfl

lemma getResp_ok (r : R) (c : Nat) :
    getResp r (.ok c) =
      if r.hasDflt && isSpace c then (r.dflt, none)
      else if c ≠ helpRune then
        (if hasKey r.validResps (toLower c) then (toLower c, none)
         else (replacementChar, some (.badResponse (toLower c))))
      else (c, none) := rfl

lemma getResp_help (r : R) : getResp r (.ok helpRune) = (helpRune, none) := by
  rw [getResp_ok]
  have h1 : isSpace helpRune = false := by decide
  simp [h1]

/-- A rune valid for the configuration is accepted as itself: it is not
whitespace, not the help rune, and lowercasing leaves it unchanged. -/
lemma getResp_valid_key (r : R) (hv : ValidR r) (v : Nat)
    (hm : v ∈ keysOf r.validResps) : getResp r (.ok v) = (v, none) := by
  obtain ⟨-, -, hkeys, -, -⟩ := hv
  obtain ⟨hu, hs, hh⟩ := hkeys v hm
  have hl : toLower v = v := toLower_eq_self v hu
  rw [getResp_ok]
  simp [hs, hh, hl, (hasKey_iff _ _).2 hm]

lemma getResp_invalid (r : R) (c : Nat) (h : InvalidInput r c) :
    getResp r (.ok c) = (replacementChar, some (.badResponse (toLower c))) := by
  obtain ⟨h1, h2, h3⟩ := h
  rw [getResp_ok]
  have hds : (r.hasDflt && isSpace c) = false := by
    cases hd : r.hasDflt
    · simp
    · simp [h1 hd]
  simp [hds, h2, h3]

/-- Whenever `getResp` reports an error the rune it returns is the
replacement rune. -/
lemma getResp_err_resp (r : R) (ev : ReadEv) (e : Err)
    (h : (getResp r ev).2 = some e) : (getResp r ev).1 = replacementChar := by
  cases ev with
  | eof => rfl
  | readErr m => rfl
  | ok c =>
      rw [getResp_ok] at h ⊢
      by_cases hds : (r.hasDflt && isSpace c) = true
      · simp [hds] at h
      · simp only [hds] at h ⊢
        by_cases hh : c = helpRune
        · simp [hh] at h
        · by_cases hk : hasKey r.validResps (toLower c) = true
          · simp [hh, hk] at h
          · simp only [Bool.not_eq_true] at hk
            simp [hh, hk]

/-- Whenever `getResp` succeeds the rune it returns is the help rune or a
key of the response map (for a valid configuration). -/
lemma getResp_none_mem (r : R) (hv : ValidR r) (ev : ReadEv) (c : Nat)
    (h : getResp r ev = (c, none)) :
    c = helpRune ∨ c ∈ keysOf r.validResps := by
  cases ev with
  | eof => simp [getResp_eof] at h
  | readErr m => simp [getResp_readErr] at h
  | ok c0 =>
      rw [getResp_ok] at h
      by_cases hds : (r.hasDflt && isSpace c0) = true
      · simp only [hds, if_true] at h
        obtain ⟨hc, -⟩ := Prod.mk.injEq .. ▸ h
        right
        obtain ⟨-, -, -, hdflt, -⟩ := hv
        have : c = r.dflt := by cases h; rfl
        subst this
        exact hdflt (Bool.and_elim_left hds)
      · simp only [hds] at h
        by_cases hh : c0 = helpRune
        · simp only [hh, ne_eq, not_true_eq_false, if_false] at h
          left; cases h; rfl
        · simp only [ne_eq, hh, not_false_eq_true, if_true] at h
          by_cases hk : hasKey r.validResps (toLower c0) = true
          · simp only [hk, if_true] at h
            right
            have : c = toLower c0 := by cases h; rfl
            subst this
            exact (hasKey_iff _ _).1 hk
          · simp only [Bool.not_eq_true] at hk
            simp [hk] at h

lemma respLoop_nil (r : R) (sec i : Int) (pre spre : Str) :
    respLoop r sec i pre spre [] =
      ⟨r, [.stdout pre, .promptOut (PrintPrompt r)],
        replacementChar, some .eof, i + 1⟩ := rfl

lemma respLoop_cons (r : R) (sec i : Int) (pre spre : Str) (ev : ReadEv)
    (rest : List ReadEv) (q : Nat × Option Err) (h : getResp r ev = q) :
    respLoop r sec i pre spre (ev :: rest) =
      (if q.1 = helpRune then
        let t := respLoop r sec i spre spre rest
        ⟨t.recv,
          .stdout pre :: .promptOut (PrintPrompt r) :: .helpText sec :: t.events,
          t.response, t.err, t.attempts⟩
      else if q.2 = none ∨ q.2 = some .eof then
        ⟨r, [.stdout pre, .promptOut (PrintPrompt r)], q.1, q.2, i + 1⟩
      else if r.limitPrompts = true ∧ r.maxReprompts < i + 1 then
        ⟨r, [.stdout pre, .promptOut (PrintPrompt r)], q.1, q.2, i + 1⟩
      else
        let t := respLoop r sec (i + 1) spre spre rest
        ⟨t.recv,
          .stdout pre :: .promptOut (PrintPrompt r) :: .errLine [] ::
            .errLine (spre ++ strOf ("    ") ++ errMsgO q.2) :: t.events,
          t.response, t.err, t.attempts⟩) := by
  subst h
  rfl

/-- The response map of the `PrintPrompt` examples in the repository:
`y` → delete the file, `n` → leave the file alone. -/
def exampleResps : List (Nat × Str) :=
  [(121, strOf ("delete the file")), (110, strOf ("leave the file alone"))]

/-- The example configuration with default `y`. -/
def exampleDflt : R :=
  { prompt := strOf ("Delete File"), validResps := exampleResps,
    hasDflt := true, dflt := 121, maxReprompts := 0, limitPrompts := false,
    indent := 0, indentFirst := 0 }

/-- The example configuration with no default. -/
def exampleNoDflt : R :=
  { prompt := strOf ("Delete File"), validResps := exampleResps,
    hasDflt := false, dflt := 0, maxReprompts := 0, limitPrompts := false,
    indent := 0, indentFirst := 0 }

/-- The example configuration with `SetMaxReprompts(2)` and no default. -/
def exampleLimit2 : R :=
  { prompt := strOf ("Delete File"), validResps := exampleResps,
    hasDflt := false, dflt := 0, maxReprompts := 2, limitPrompts := true,
    indent := 0, indentFirst := 0 }

lemma replacementChar_ne_helpRune : replacementChar ≠ helpRune := by decide

/-- C3: end-of-input terminates `GetResponseIndent` immediately — on an
exhausted input stream and on an explicit end-of-input read event the loop
returns the end-of-input error at once with exactly one prompt printed and
nothing further read, for every configuration (any retry limit) and any
attempt counter; on the very first read it does so with attempt counter 1.
A read error other than end-of-input instead follows the retry policy of
invalid input: the attempt counter is incremented, and the loop returns the
read error when a configured reprompt limit is exceeded and otherwise
prints the error and reprompts on the remaining input. -/
theorem claim_C3 :
    (∀ (r : R) (sec i : Int) (pre spre : Str),
        respLoop r sec i pre spre [] =
          ⟨r, [.stdout pre, .promptOut (PrintPrompt r)],
            replacementChar, some .eof, i + 1⟩)
  ∧ (∀ (r : R) (sec i : Int) (pre spre : Str) (rest : List ReadEv),
        respLoop r sec i pre spre (.eof :: rest) =
          ⟨r, [.stdout pre, .promptOut (PrintPrompt r)],
            replacementChar, some .eof, i + 1⟩)
  ∧ (∀ (r : R) (first second : Int) (rest : List ReadEv),
        GetResponseIndent r first second (.eof :: rest) =
          ⟨r, [.stdout (spaces first), .promptOut (PrintPrompt r)],
            replacementChar, some .eof, 1⟩)
  ∧ (∀ (r : R) (sec i : Int) (pre spre : Str) (m : Str) (rest : List ReadEv),
        respLoop r sec i pre spre (.readErr m :: rest) =
          if r.limitPrompts = true ∧ r.maxReprompts < i + 1 then
            ⟨r, [.stdout pre, .promptOut (PrintPrompt r)],
              replacementChar, some (.readErr m), i + 1⟩
          else
            let t := respLoop r sec (i + 1) spre spre rest
            ⟨t.recv,
              .stdout pre :: .promptOut (PrintPrompt r) :: .errLine [] ::
                .errLine (spre ++ strOf ("    ") ++ m) :: t.events,
              t.response, t.err, t.attempts⟩) := by
  refine ⟨fun r sec i pre spre => respLoop_nil r sec i pre spre, ?_, ?_, ?_⟩
  · intro r sec i pre spre rest
    rw [respLoop_cons r sec i pre spre .eof rest _ (getResp_eof r)]
    simp [replacementChar_ne_helpRune]
  · intro r first second rest
    unfold GetResponseIndent
    rw [respLoop_cons r second 0 (spaces first) (spaces second) .eof rest _
      (getResp_eof r)]
    simp [replacementChar_ne_helpRune]
  · intro r sec i pre spre m rest
    rw [respLoop_cons r sec i pre spre (.readErr m) rest _ (getResp_readErr r m)]
    simp [replacementChar_ne_helpRune, errMsgO, errMsg]

/-- C10: whenever the response loop returns a non-nil error — invalid
response with retries exhausted, non-EOF read error, or end-of-input — the
rune it returns alongside the error is the Unicode replacement character
U+FFFD. -/
theorem claim_C10 :
    ∀ (r : R) (sec i : Int) (pre spre : Str) (input : List ReadEv) (e : Err),
      (respLoop r sec i pre spre input).err = some e →
      (respLoop r sec i pre spre input).response = replacementChar := by
  intro r sec i pre spre input
  induction input generalizing i pre with
  | nil => intro e h; rfl
  | cons ev rest ih =>
      intro e h
      rcases hq : getResp r ev with ⟨c, e2⟩
      rw [respLoop_cons r sec i pre spre ev rest _ hq] at h ⊢
      simp only at h ⊢
      split_ifs at h ⊢ with hc hnil hlim
      · exact ih i spre e h
      · rcases hnil with h0 | h0
        · subst h0; cases h
        · subst h0
          have := getResp_err_resp r ev .eof (by rw [hq])
          rw [hq] at this
          exact this
      · have heq : e2 = some e := h
        have := getResp_err_resp r ev e (by rw [hq, heq])
        rw [hq] at this
        exact this
      · exact ih (i + 1) spre e h

/-- C9: for a valid configuration, whenever the response loop returns with a
nil error the returned rune is a key of the response map; in particular it
is never the help rune (a help read always re-enters the prompt loop). -/
theorem claim_C9 :
    ∀ (r : R), ValidR r →
      ∀ (sec i : Int) (pre spre : Str) (input : List ReadEv),
        (respLoop r sec i pre spre input).err = none →
        (respLoop r sec i pre spre input).response ∈ keysOf r.validResps ∧
        (respLoop r sec i pre spre input).response ≠ helpRune := by
  intro r hv sec i pre spre input
  induction input generalizing i pre with
  | nil => intro h; cases h
  | cons ev rest ih =>
      intro h
      rcases hq : getResp r ev with ⟨c, e2⟩
      rw [respLoop_cons r sec i pre spre ev rest _ hq] at h ⊢
      simp only at h ⊢
      split_ifs at h ⊢ with hc hnil hlim
      · exact ih i spre h
      · have he2 : e2 = none := by
          rcases hnil with h0 | h0
          · exact h0
          · subst h0; cases h
        subst he2
        rcases getResp_none_mem r hv ev c hq with h63 | hmem
        · exact absurd h63 hc
        · exact ⟨hmem, hc⟩
      · exact absurd (Or.inl h) hnil
      · exact ih (i + 1) spre h

/-- C8: the response loop never mutates the configuration: the receiver
value it hands back (threaded through every iteration of the loop in the
embedding) is the configuration it was called with, for `GetResponseIndent`
and `GetResponse` alike.  The renderers (`PrintPrompt`,
`PrintValidResponses`, `PrintHelp`) are value-receiver functions without a
single assignment in the source and are embedded as pure functions of the
configuration, so for them the property is definitional. -/
theorem claim_C8 :
    ∀ (r : R), ValidR r →
      (∀ (sec i : Int) (pre spre : Str) (input : List ReadEv),
          (respLoop r sec i pre spre input).recv = r)
    ∧ (∀ (first second : Int) (input : List ReadEv),
          (GetResponseIndent r first second input).recv = r)
    ∧ (∀ input : List ReadEv, (GetResponse r input).recv = r) := by
  intro r _
  have hloop : ∀ (sec i : Int) (pre spre : Str) (input : List ReadEv),
      (respLoop r sec i pre spre input).recv = r := by
    intro sec i pre spre input
    induction input generalizing i pre with
    | nil => rfl
    | cons ev rest ih =>
        rcases hq : getResp r ev with ⟨c, e2⟩
        rw [respLoop_cons r sec i pre spre ev rest _ hq]
        simp only
        split_ifs with hc hnil hlim
        · exact ih i spre
        · rfl
        · rfl
        · exact ih (i + 1) spre
  exact ⟨hloop, fun first second input => hloop second 0 _ _ input,
    fun input => hloop r.indent 0 _ _ input⟩

/-- Witness for C9 at a concrete valid configuration and input. -/
theorem claim_C9_witness :
    ValidR exampleDflt ∧
    (respLoop exampleDflt 0 0 [] [] [.ok 110]).err = none ∧
    (respLoop exampleDflt 0 0 [] [] [.ok 110]).response ∈
      keysOf exampleDflt.validResps ∧
    (respLoop exampleDflt 0 0 [] [] [.ok 110]).response ≠ helpRune := by
  refine ⟨by decide, by decide, ?_⟩
  exact claim_C9 exampleDflt (by decide) 0 0 [] [] [.ok 110] (by decide)

/-- Witness for C10 at a concrete input (end-of-input on the first read). -/
theorem claim_C10_witness :
    (respLoop exampleDflt 0 0 [] [] []).err = some .eof ∧
    (respLoop exampleDflt 0 0 [] [] []).response = replacementChar := by
  refine ⟨by decide, ?_⟩
  exact claim_C10 exampleDflt 0 0 [] [] [] .eof (by decide)

/-- Witness for C8 at a concrete valid configuration and input. -/
theorem claim_C8_witness :
    ValidR exampleDflt ∧
    (GetResponse exampleDflt [.ok 121]).recv = exampleDflt := by
  refine ⟨by decide, ?_⟩
  exact (claim_C8 exampleDflt (by decide)).2.2 [.ok 121]

/-- The response loop on `n` help reads followed by a valid response: the
attempt counter is untouched by the helps and the valid response is
accepted on attempt `i + 1`, with `n + 1` prompts printed. -/
lemma respLoop_helps_then_valid (r : R) (hv : ValidR r) (v : Nat)
    (hm : v ∈ keysOf r.validResps) (sec : Int) (spre : Str)
    (rest : List ReadEv) :
    ∀ (n : Nat) (i : Int) (pre : Str),
      (respLoop r sec i pre spre
          (List.replicate n (.ok helpRune) ++ .ok v :: rest)).recv = r ∧
      (respLoop r sec i pre spre
          (List.replicate n (.ok helpRune) ++ .ok v :: rest)).response = v ∧
      (respLoop r sec i pre spre
          (List.replicate n (.ok helpRune) ++ .ok v :: rest)).err = none ∧
      (respLoop r sec i pre spre
          (List.replicate n (.ok helpRune) ++ .ok v :: rest)).attempts = i + 1 ∧
      promptCount (respLoop r sec i pre spre
          (List.replicate n (.ok helpRune) ++ .ok v :: rest)).events = n + 1 := by
  intro n
  induction n with
  | zero =>
      intro i pre
      have hval := getResp_valid_key r hv v hm
      have hvh : v ≠ helpRune := ((hv.2.2.1 v hm).2.2)
      simp only [List.replicate, List.nil_append]
      rw [respLoop_cons r sec i pre spre (.ok v) rest _ hval]
      simp [hvh, promptCount]
  | succ n ih =>
      intro i pre
      simp only [List.replicate_succ, List.cons_append]
      rw [respLoop_cons r sec i pre spre (.ok helpRune) _ _ (getResp_help r)]
      simp only [if_pos rfl]
      obtain ⟨h1, h2, h3, h4, h5⟩ := ih i spre
      refine ⟨h1, h2, h3, h4, ?_⟩
      simp [promptCount] at h5 ⊢
      omega

/-- C2: help inputs never consume a retry: for every valid configuration,
`n` consecutive help reads followed by one valid response leave the attempt
counter at 1 (not `n + 1`), each help re-prints the help text and the
prompt (`n + 1` prompts in total), and the loop ends accepting the valid
response with a nil error. -/
theorem claim_C2 :
    ∀ (r : R), ValidR r → ∀ v ∈ keysOf r.validResps,
      ∀ (n : Nat) (first second : Int) (rest : List ReadEv),
        (GetResponseIndent r first second
            (List.replicate n (.ok helpRune) ++ .ok v :: rest)).response = v ∧
        (GetResponseIndent r first second
            (List.replicate n (.ok helpRune) ++ .ok v :: rest)).err = none ∧
        (GetResponseIndent r first second
            (List.replicate n (.ok helpRune) ++ .ok v :: rest)).attempts = 1 ∧
        promptCount (GetResponseIndent r first second
            (List.replicate n (.ok helpRune) ++ .ok v :: rest)).events = n + 1 := by
  intro r hv v hm n first second rest
  obtain ⟨-, h2, h3, h4, h5⟩ :=
    respLoop_helps_then_valid r hv v hm second (spaces second) rest n 0
      (spaces first)
  unfold GetResponseIndent
  exact ⟨h2, h3, by rw [h4]; omega, h5⟩

/-- Witness for C2: two helps then `y` on the default-`y` configuration. -/
theorem claim_C2_witness :
    ValidR exampleDflt ∧ 121 ∈ keysOf exampleDflt.validResps ∧
    (GetResponseIndent exampleDflt 0 0
        (List.replicate 2 (.ok helpRune) ++ .ok 121 :: [])).response = 121 ∧
    (GetResponseIndent exampleDflt 0 0
        (List.replicate 2 (.ok helpRune) ++ .ok 121 :: [])).attempts = 1 := by
  refine ⟨by decide, by decide, ?_⟩
  obtain ⟨h1, -, h3, -⟩ :=
    claim_C2 exampleDflt (by decide) 121 (by decide) 2 0 0 []
  exact ⟨h1, h3⟩

/-- One invalid read: the attempt counter is incremented and the loop either
returns the invalid-response error (reprompt limit exceeded) or prints it
and re-enters on the remaining input. -/
lemma respLoop_invalid_step (r : R) (c : Nat) (h : InvalidInput r c)
    (sec i : Int) (pre spre : Str) (rest : List ReadEv) :
    respLoop r sec i pre spre (.ok c :: rest) =
      if r.limitPrompts = true ∧ r.maxReprompts < i + 1 then
        ⟨r, [.stdout pre, .promptOut (PrintPrompt r)], replacementChar,
          some (.badResponse (toLower c)), i + 1⟩
      else
        let t := respLoop r sec (i + 1) spre spre rest
        ⟨t.recv,
          .stdout pre :: .promptOut (PrintPrompt r) :: .errLine [] ::
            .errLine (spre ++ strOf ("    ") ++
              errMsg (.badResponse (toLower c))) :: t.events,
          t.response, t.err, t.attempts⟩ := by
  rw [respLoop_cons r sec i pre spre (.ok c) rest _ (getResp_invalid r c h)]
  simp [replacementChar_ne_helpRune, errMsgO]

/-- C1 (amended): with `SetMaxReprompts(2)` and three consecutive invalid
reads the loop prints the prompt exactly three times and returns after the
third invalid attempt (attempt counter 3) with the replacement rune — but
the error it returns is the per-attempt invalid-response error of the third
attempt (`Bad response: <rune>`); the code has no distinct
retry-bound-exceeded error value. -/
theorem claim_C1 :
    ∀ (r : R), r.limitPrompts = true → r.maxReprompts = 2 →
      ∀ (c1 c2 c3 : Nat),
        InvalidInput r c1 → InvalidInput r c2 → InvalidInput r c3 →
        ∀ (first second : Int) (rest : List ReadEv),
          promptCount (GetResponseIndent r first second
              (.ok c1 :: .ok c2 :: .ok c3 :: rest)).events = 3 ∧
          (GetResponseIndent r first second
              (.ok c1 :: .ok c2 :: .ok c3 :: rest)).response = replacementChar ∧
          (GetResponseIndent r first second
              (.ok c1 :: .ok c2 :: .ok c3 :: rest)).err =
            some (.badResponse (toLower c3)) ∧
          (GetResponseIndent r first second
              (.ok c1 :: .ok c2 :: .ok c3 :: rest)).attempts = 3 := by
  intro r hlim hmax c1 c2 c3 h1 h2 h3 first second rest
  unfold GetResponseIndent
  rw [respLoop_invalid_step r c1 h1, respLoop_invalid_step r c2 h2,
    respLoop_invalid_step r c3 h3, hlim, hmax]
  rw [if_neg (show ¬(true = true ∧ (2 : Int) < 0 + 1) from by decide)]
  rw [if_neg (show ¬(true = true ∧ (2 : Int) < 0 + 1 + 1) from by decide)]
  rw [if_pos (show true = true ∧ (2 : Int) < 0 + 1 + 1 + 1 from by decide)]
  refine ⟨?_, rfl, rfl, by norm_num⟩
  simp [promptCount, List.countP_cons]

/-- Counterexample to C1 as stated: at the concrete limit-2 configuration
and three invalid `x` reads, the error returned is exactly the per-attempt
invalid-response error that a single invalid read produces — not a
distinct retry-bound-exceeded error (the source has no such error value;
`Err`, the faithful embedding of its error results, has no constructor for
one). -/
theorem claim_C1_counterexample :
    (GetResponseIndent exampleLimit2 0 0
        [.ok 120, .ok 120, .ok 120]).err = some (.badResponse 120) ∧
    (getResp exampleLimit2 (.ok 120)).2 = some (.badResponse 120) := by
  exact ⟨by decide, by decide⟩

/-- Witness for C1 (amended) at the limit-2 configuration and three `x`
reads. -/
theorem claim_C1_witness :
    exampleLimit2.limitPrompts = true ∧ exampleLimit2.maxReprompts = 2 ∧
    InvalidInput exampleLimit2 120 ∧
    promptCount (GetResponseIndent exampleLimit2 0 0
        [.ok 120, .ok 120, .ok 120]).events = 3 ∧
    (GetResponseIndent exampleLimit2 0 0
        [.ok 120, .ok 120, .ok 120]).attempts = 3 := by
  refine ⟨by decide, by decide, by decide, ?_⟩
  obtain ⟨hp, -, -, ha⟩ :=
    claim_C1 exampleLimit2 (by decide) (by decide) 120 120 120
      (by decide) (by decide) (by decide) 0 0 []
  exact ⟨hp, ha⟩

lemma isSpace_iff (c : Nat) :
    isSpace c = true ↔ (c = 9 ∨ c = 10 ∨ c = 11 ∨ c = 12 ∨ c = 13 ∨ c = 32) := by
  simp [isSpace]

lemma isSpace_eq_false_iff (c : Nat) :
    isSpace c = false ↔
      (c ≠ 9 ∧ c ≠ 10 ∧ c ≠ 11 ∧ c ≠ 12 ∧ c ≠ 13 ∧ c ≠ 32) := by
  simp [isSpace, not_or]

lemma toLower_of_isSpace (c : Nat) (h : isSpace c = true) : toLower c = c := by
  rw [isSpace_iff] at h
  rcases h with h | h | h | h | h | h <;> subst h <;> decide

lemma isSpace_helpRune : isSpace helpRune = false := by decide

/-- C5: with a configured default, any whitespace read is accepted as the
default rune verbatim (no case-folding) with a nil error; with no default,
a whitespace read produces the invalid-response error carrying the
whitespace rune itself and consumes a retry attempt (the counter is
incremented, and the loop returns when a configured limit is exceeded and
otherwise prints the error and reprompts). -/
theorem claim_C5 :
    ∀ (r : R), ValidR r → ∀ (w : Nat), isSpace w = true →
      ∀ (sec i : Int) (pre spre : Str) (rest : List ReadEv),
        (r.hasDflt = true →
           respLoop r sec i pre spre (.ok w :: rest) =
             ⟨r, [.stdout pre, .promptOut (PrintPrompt r)],
               r.dflt, none, i + 1⟩) ∧
        (r.hasDflt = false →
           getResp r (.ok w) = (replacementChar, some (.badResponse w)) ∧
           respLoop r sec i pre spre (.ok w :: rest) =
             (if r.limitPrompts = true ∧ r.maxReprompts < i + 1 then
                ⟨r, [.stdout pre, .promptOut (PrintPrompt r)],
                  replacementChar, some (.badResponse w), i + 1⟩
              else
                let t := respLoop r sec (i + 1) spre spre rest
                ⟨t.recv,
                  .stdout pre :: .promptOut (PrintPrompt r) :: .errLine [] ::
                    .errLine (spre ++ strOf ("    ") ++
                      errMsg (.badResponse w)) :: t.events,
                  t.response, t.err, t.attempts⟩)) := by
  intro r hv w hw sec i pre spre rest
  constructor
  · intro hd
    have hdk : r.dflt ∈ keysOf r.validResps := hv.2.2.2.1 hd
    have hdh : r.dflt ≠ helpRune := (hv.2.2.1 r.dflt hdk).2.2
    have hq : getResp r (.ok w) = (r.dflt, none) := by
      rw [getResp_ok]
      simp [hd, hw]
    rw [respLoop_cons r sec i pre spre (.ok w) rest _ hq]
    simp [hdh]
  · intro hd
    have hwh : w ≠ helpRune := by
      intro he
      rw [he, isSpace_helpRune] at hw
      cases hw
    have hlw : toLower w = w := toLower_of_isSpace w hw
    have hnk : hasKey r.validResps (toLower w) = false := by
      rw [hlw]
      by_contra hc
      simp only [Bool.not_eq_false] at hc
      have hm := (hasKey_iff _ _).1 hc
      have := (hv.2.2.1 w hm).2.1
      rw [hw] at this
      cases this
    have hinv : InvalidInput r w :=
      ⟨fun he => (by rw [he] at hd; cases hd), hwh, hnk⟩
    refine ⟨?_, ?_⟩
    · rw [getResp_invalid r w hinv, hlw]
    · rw [respLoop_invalid_step r w hinv, hlw]

/-- Witness for C5: a space read with default `y` is accepted as `y`; with
no default it yields the invalid-response error carrying the space. -/
theorem claim_C5_witness :
    ValidR exampleDflt ∧ ValidR exampleNoDflt ∧ isSpace 32 = true ∧
    respLoop exampleDflt 0 0 [] [] [.ok 32] =
      ⟨exampleDflt, [.stdout [], .promptOut (PrintPrompt exampleDflt)],
        121, none, 1⟩ ∧
    getResp exampleNoDflt (.ok 32) =
      (replacementChar, some (.badResponse 32)) := by
  refine ⟨by decide, by decide, by decide, ?_, ?_⟩
  · have h := (claim_C5 exampleDflt (by decide) 32 (by decide)
      0 0 [] [] []).1 (by decide)
    simpa using h
  · exact ((claim_C5 exampleNoDflt (by decide) 32 (by decide)
      0 0 [] [] []).2 (by decide)).1

lemma isSpace_toUpper (c : Nat) (h : isSpace c = false) :
    isSpace (toUpper c) = false := by
  rw [isSpace_eq_false_iff] at h ⊢
  unfold toUpper
  split_ifs with hc <;> refine ⟨?_, ?_, ?_, ?_, ?_, ?_⟩ <;> omega

lemma isSpace_toLower (c : Nat) (h : isSpace c = false) :
    isSpace (toLower c) = false := by
  rw [isSpace_eq_false_iff] at h ⊢
  unfold toLower
  split_ifs with hc <;> refine ⟨?_, ?_, ?_, ?_, ?_, ?_⟩ <;> omega

lemma toUpper_ne_helpRune (c : Nat) (h : c ≠ helpRune) :
    toUpper c ≠ helpRune := by
  unfold helpRune at h ⊢
  unfold toUpper
  split_ifs with hc <;> omega

lemma toLower_ne_helpRune (c : Nat) (h : c ≠ helpRune) :
    toLower c ≠ helpRune := by
  unfold helpRune at h ⊢
  unfold toLower
  split_ifs with hc <;> omega

lemma toLower_toUpper (c : Nat) : toLower (toUpper c) = toLower c := by
  unfold toLower toUpper
  split_ifs <;> omega

lemma toLower_toLower (c : Nat) : toLower (toLower c) = toLower c := by
  unfold toLower
  split_ifs <;> omega

/-- For a non-whitespace, non-help rune, the uppercase and lowercase forms
read identically: `getResp` lowercases before the membership check. -/
lemma getResp_case_fold (r : R) (c : Nat) (hs : isSpace c = false)
    (hh : c ≠ helpRune) :
    getResp r (.ok (toUpper c)) = getResp r (.ok (toLower c)) := by
  rw [getResp_ok, getResp_ok]
  rw [isSpace_toUpper c hs, isSpace_toLower c hs]
  simp only [Bool.and_false]
  rw [toLower_toUpper, toLower_toLower]
  simp [toUpper_ne_helpRune c hh, toLower_ne_helpRune c hh]

/-- C6: for every configuration and every non-whitespace, non-help rune,
feeding its uppercase form yields exactly the same loop result (accepted
rune, error, trace, counter) as feeding its lowercase form, at any loop
state and from `GetResponse`. -/
theorem claim_C6 :
    ∀ (r : R) (c : Nat), isSpace c = false → c ≠ helpRune →
      (∀ (sec i : Int) (pre spre : Str) (rest : List ReadEv),
          respLoop r sec i pre spre (.ok (toUpper c) :: rest) =
          respLoop r sec i pre spre (.ok (toLower c) :: rest)) ∧
      (∀ rest : List ReadEv,
          GetResponse r (.ok (toUpper c) :: rest) =
          GetResponse r (.ok (toLower c) :: rest)) := by
  intro r c hs hh
  have hg := getResp_case_fold r c hs hh
  have hloop : ∀ (sec i : Int) (pre spre : Str) (rest : List ReadEv),
      respLoop r sec i pre spre (.ok (toUpper c) :: rest) =
      respLoop r sec i pre spre (.ok (toLower c) :: rest) := by
    intro sec i pre spre rest
    rw [respLoop_cons r sec i pre spre (.ok (toUpper c)) rest _ hg,
      respLoop_cons r sec i pre spre (.ok (toLower c)) rest _ rfl]
  exact ⟨hloop, fun rest => hloop r.indent 0 _ _ rest⟩

/-- Witness for C6: `Y` (89) and `y` (121) read identically on the
no-default `{y, n}` configuration. -/
theorem claim_C6_witness :
    isSpace 121 = false ∧ (121 : Nat) ≠ helpRune ∧
    GetResponse exampleNoDflt [.ok (toUpper 121)] =
      GetResponse exampleNoDflt [.ok (toLower 121)] := by
  refine ⟨by decide, by decide, ?_⟩
  exact (claim_C6 exampleNoDflt 121 (by decide) (by decide)).2 []

lemma checkKeys_eq_none (l : List (Nat × Str)) :
    checkKeys l = none ↔
      ∀ k ∈ keysOf l, isUpper k = false ∧ isSpace k = false ∧ k ≠ helpRune := by
  induction l with
  | nil => simp [checkKeys, keysOf]
  | cons p rest ih =>
      obtain ⟨v, d⟩ := p
      simp only [checkKeys, keysOf, List.map_cons, List.forall_mem_cons]
      split_ifs with h1 h2 h3
      · simp [h1]
      · simp [h2]
      · simp [h3]
      · simp only [Bool.not_eq_true] at h1 h2
        simp [h1, h2, h3, keysOf] at ih ⊢
        rw [ih]

lemma applyOpt_ok_validResps (o : RespOpt) (r r2 : R)
    (h : applyOpt o r = .ok r2) : r2.validResps = r.validResps := by
  cases o <;> simp only [applyOpt] at h <;> split_ifs at h <;>
    (cases h; rfl)

lemma applyOpt_ok_iff (o : RespOpt) (r : R) :
    (∃ r2, applyOpt o r = .ok r2) ↔ GoodOpt r.validResps o := by
  cases o with
  | setDefault d =>
      simp only [applyOpt, GoodOpt]
      split_ifs with h
      · simp [h]
      · simp [h]
  | setMaxReprompts m =>
      simp only [applyOpt, GoodOpt]
      split_ifs with h
      · simp
        omega
      · simp
        omega
  | setIndents f d2 =>
      simp only [applyOpt, GoodOpt]
      split_ifs with h1 h2
      · simp
        omega
      · simp
        omega
      · simp
        omega

lemma applyOpts_ok_iff :
    ∀ (os : List RespOpt) (r : R),
      (∃ r2, applyOpts os r = .ok r2) ↔ ∀ o ∈ os, GoodOpt r.validResps o := by
  intro os
  induction os with
  | nil => intro r; simp [applyOpts]
  | cons o os ih =>
      intro r
      simp only [applyOpts, List.forall_mem_cons]
      cases happ : applyOpt o r with
      | error e =>
          have hng : ¬ GoodOpt r.validResps o := by
            intro hg
            obtain ⟨r2, h2⟩ := (applyOpt_ok_iff o r).2 hg
            rw [happ] at h2
            cases h2
          simp [hng]
      | ok r1 =>
          have hg : GoodOpt r.validResps o := (applyOpt_ok_iff o r).1 ⟨r1, happ⟩
          have hvr : r1.validResps = r.validResps :=
            applyOpt_ok_validResps o r r1 happ
          have := ih r1
          rw [hvr] at this
          simp [hg, this]

lemma applyOpt_ok_fields (o : RespOpt) (r r1 : R) (h : applyOpt o r = .ok r1) :
    r1.validResps = r.validResps ∧
    ((r.hasDflt = true → r.dflt ∈ keysOf r.validResps) →
      (r1.hasDflt = true → r1.dflt ∈ keysOf r.validResps)) ∧
    ((r.limitPrompts = true → 0 < r.maxReprompts) →
      (r1.limitPrompts = true → 0 < r1.maxReprompts)) := by
  cases o with
  | setDefault d =>
      simp only [applyOpt] at h
      split_ifs at h with hk
      cases h
      exact ⟨rfl, fun _ _ => (hasKey_iff _ _).1 hk, fun hl => hl⟩
  | setMaxReprompts m =>
      simp only [applyOpt] at h
      split_ifs at h with hm
      cases h
      refine ⟨rfl, fun hd => hd, fun _ _ => ?_⟩
      show (0 : Int) < m
      omega
  | setIndents f d2 =>
      simp only [applyOpt] at h
      split_ifs at h with hd2 hf
      cases h
      exact ⟨rfl, fun hd => hd, fun hl => hl⟩

lemma applyOpts_ok_fields :
    ∀ (os : List RespOpt) (r r2 : R), applyOpts os r = .ok r2 →
      r2.validResps = r.validResps ∧
      ((r.hasDflt = true → r.dflt ∈ keysOf r.validResps) →
        (r2.hasDflt = true → r2.dflt ∈ keysOf r.validResps)) ∧
      ((r.limitPrompts = true → 0 < r.maxReprompts) →
        (r2.limitPrompts = true → 0 < r2.maxReprompts)) := by
  intro os
  induction os with
  | nil =>
      intro r r2 h
      cases h
      exact ⟨rfl, fun hd => hd, fun hl => hl⟩
  | cons o os ih =>
      intro r r2 h
      simp only [applyOpts] at h
      cases happ : applyOpt o r with
      | error e => rw [happ] at h; cases h
      | ok r1 =>
          rw [happ] at h
          obtain ⟨a1, a2, a3⟩ := applyOpt_ok_fields o r r1 happ
          obtain ⟨b1, b2, b3⟩ := ih r1 r2 h
          rw [a1] at b2
          exact ⟨b1.trans a1, fun hd => b2 (a2 hd), fun hl => b3 (a3 hl)⟩

/-- C4: `New` succeeds exactly when the response map has at least two
entries, no key is uppercase, whitespace or the help rune, and every option
setter succeeds (`SetDefault` names a key, `SetMaxReprompts` gets a
positive limit, `SetIndents` gets non-negative indents) — equivalently, it
returns an error exactly when one of those conditions fails — and every
configuration it returns is valid. -/
theorem claim_C4 :
    ∀ (prompt : Str) (responses : List (Nat × Str)) (opts : List RespOpt),
      (keysOf responses).Nodup →
      ((∃ r, New prompt responses opts = .ok r) ↔
        (2 ≤ responses.length ∧
         (∀ k ∈ keysOf responses,
            isUpper k = false ∧ isSpace k = false ∧ k ≠ helpRune) ∧
         (∀ o ∈ opts, GoodOpt responses o)))
      ∧ (∀ r, New prompt responses opts = .ok r → ValidR r) := by
  intro prompt responses opts hnd
  constructor
  · by_cases hlen : responses.length ≤ 1
    · simp only [New, if_pos hlen]
      constructor
      · rintro ⟨r, hr⟩
        cases hr
      · rintro ⟨h2, -⟩
        omega
    · simp only [New, if_neg hlen]
      cases hck : checkKeys responses with
      | some e =>
          simp only
          constructor
          · rintro ⟨r, hr⟩
            cases hr
          · rintro ⟨-, hkeys, -⟩
            have := (checkKeys_eq_none responses).2 hkeys
            rw [this] at hck
            cases hck
      | none =>
          simp only
          rw [applyOpts_ok_iff]
          constructor
          · intro hall
            exact ⟨by omega, (checkKeys_eq_none responses).1 hck, hall⟩
          · rintro ⟨-, -, hopts⟩
            exact hopts
  · intro r hok
    simp only [New] at hok
    split_ifs at hok with hlen
    cases hck : checkKeys responses with
    | some e =>
        rw [hck] at hok
        cases hok
    | none =>
        rw [hck] at hok
        obtain ⟨f1, f2, f3⟩ := applyOpts_ok_fields opts _ r hok
        refine ⟨?_, ?_, ?_, ?_, ?_⟩
        · rw [f1]
          show 2 ≤ responses.length
          omega
        · rw [f1]
          exact hnd
        · rw [f1]
          exact (checkKeys_eq_none _).1 hck
        · intro hd
          rw [f1]
          exact f2 (fun hfalse => by cases hfalse) hd
        · exact f3 (fun hfalse => by cases hfalse)

/-- Witness for C4: the two-key `{y, n}` map with `SetDefault('y')`
succeeds, and the returned configuration is valid. -/
theorem claim_C4_witness :
    (keysOf exampleResps).Nodup ∧
    (∃ r, New (strOf ("Delete File")) exampleResps [.setDefault 121] = .ok r) := by
  refine ⟨by decide, ?_⟩
  exact ((claim_C4 (strOf ("Delete File")) exampleResps
    [.setDefault 121] (by decide)).1).mpr (by decide)

/-- The rendering the claim describes for a slash-separated rune list. -/
def joinSlash : List Nat → Str
  | [] => []
  | k :: ks => [k] ++ (ks.map (fun c => strOf ("/") ++ [c])).flatten

/-- The valid runes other than the default, in ascending order. -/
def remainingRunes (r : R) : List Nat :=
  (getSortedValidResponses r).filter (fun c => !(r.hasDflt && c == r.dflt))

lemma pvr_foldl_slash (r : R) :
    ∀ (l : List Nat) (out : Str),
      l.foldl (pvrStep r) (out, strOf ("/")) =
        (out ++ ((l.filter (fun c => !(r.hasDflt && c == r.dflt))).map
            (fun c => strOf ("/") ++ [c])).flatten, strOf ("/")) := by
  intro l
  induction l with
  | nil => intro out; simp
  | cons c l ih =>
      intro out
      simp only [List.foldl_cons, List.filter_cons]
      by_cases hc : (r.hasDflt && c == r.dflt) = true
      · simp only [pvrStep, hc, if_true, Bool.not_true, if_false]
        rw [ih out]
        simp
      · simp only [Bool.not_eq_true] at hc
        simp only [pvrStep, hc, Bool.false_eq_true, if_false, Bool.not_false,
          if_true]
        rw [ih (out ++ strOf ("/") ++ [c])]
        simp [List.append_assoc]

lemma pvr_foldl_emptySep (r : R) :
    ∀ (l : List Nat) (out : Str) (k : Nat) (ks : List Nat),
      l.filter (fun c => !(r.hasDflt && c == r.dflt)) = k :: ks →
      l.foldl (pvrStep r) (out, []) =
        (out ++ [k] ++ (ks.map (fun c => strOf ("/") ++ [c])).flatten,
          strOf ("/")) := by
  intro l
  induction l with
  | nil => intro out k ks h; simp at h
  | cons c l ih =>
      intro out k ks h
      simp only [List.filter_cons] at h
      by_cases hc : (r.hasDflt && c == r.dflt) = true
      · simp only [hc, Bool.not_true, if_false] at h
        simp only [List.foldl_cons, pvrStep, hc, if_true]
        exact ih out k ks h
      · simp only [Bool.not_eq_true] at hc
        simp only [hc, Bool.false_eq_true, if_false, Bool.not_false,
          if_true, List.cons.injEq] at h
        obtain ⟨hck, hks⟩ := h
        simp only [List.foldl_cons, pvrStep, hc, Bool.false_eq_true, if_false]
        rw [pvr_foldl_slash r l (out ++ [] ++ [c])]
        rw [hks, hck]
        simp [List.append_assoc]

lemma printValidResponses_eq (r : R) (hv : ValidR r) :
    PrintValidResponses r =
      strOf ("(") ++
      (if r.hasDflt then strOf ("[") ++ [r.dflt] ++ strOf ("]/") else []) ++
      joinSlash (remainingRunes r) ++ strOf ("/?): ") := by
  have hperm : (getSortedValidResponses r).Perm (keysOf r.validResps) :=
    List.perm_insertionSort _ _
  have hnd : (getSortedValidResponses r).Nodup :=
    hperm.nodup_iff.2 hv.2.1
  have hlen : 2 ≤ (getSortedValidResponses r).length := by
    rw [hperm.length_eq]
    have h2 := hv.1
    unfold keysOf
    simpa using h2
  have e2 : strOf ("/?): ") = strOf ("/") ++ [helpRune] ++ strOf ("): ") := by decide
  cases hd : r.hasDflt with
  | false =>
      have hne : ¬(r.hasDflt = true) := by simp [hd]
      have hfilter : (getSortedValidResponses r).filter
          (fun c => !(r.hasDflt && c == r.dflt)) = getSortedValidResponses r := by
        rw [hd]
        simp
      have hrem : remainingRunes r = getSortedValidResponses r := hfilter
      rcases hS : getSortedValidResponses r with _ | ⟨k, ks⟩
      · rw [hS] at hlen
        simp at hlen
      · unfold PrintValidResponses
        rw [hd]
        rw [if_neg (show ¬(false = true) by simp)]
        dsimp only
        rw [hS]
        rw [pvr_foldl_emptySep r (k :: ks) (strOf ("(")) k ks
          (by rw [← hS, hfilter])]
        rw [hrem, hS]
        simp only [joinSlash, e2]
        simp [List.append_assoc]
  | true =>
      have hkne : remainingRunes r ≠ [] := by
        intro hke
        have hall : ∀ c ∈ getSortedValidResponses r, c = r.dflt := by
          intro c hcmem
          by_contra hcne
          have hckept : (!(r.hasDflt && c == r.dflt)) = true := by
            rw [hd]
            simp [hcne]
          have hmem2 : c ∈ remainingRunes r :=
            List.mem_filter.2 ⟨hcmem, hckept⟩
          rw [hke] at hmem2
          cases hmem2
        rcases hS : getSortedValidResponses r with _ | ⟨a, t⟩
        · rw [hS] at hlen
          simp at hlen
        · rcases t with _ | ⟨b, t2⟩
          · rw [hS] at hlen
            simp at hlen
          · rw [hS] at hall hnd
            have ha := hall a (by simp)
            have hb := hall b (by simp)
            rw [List.nodup_cons] at hnd
            have hab : a = b := ha.trans hb.symm
            exact hnd.1 (by rw [hab]; exact List.mem_cons_self b t2)
      obtain ⟨k, ks, hkks⟩ : ∃ k ks, remainingRunes r = k :: ks := by
        rcases hr : remainingRunes r with _ | ⟨k, ks⟩
        · exact absurd hr hkne
        · exact ⟨k, ks, rfl⟩
      have eBr : strOf ("]/") = strOf ("]") ++ strOf ("/") := by decide
      unfold PrintValidResponses
      rw [hd]
      rw [if_pos (show true = true from rfl)]
      dsimp only
      rw [pvr_foldl_slash r (getSortedValidResponses r)
        (strOf ("(") ++ strOf ("[") ++ [r.dflt] ++ strOf ("]"))]
      rw [show (getSortedValidResponses r).filter
          (fun c => !(r.hasDflt && c == r.dflt)) = remainingRunes r from rfl]
      rw [hkks]
      simp only [List.map_cons, List.flatten_cons, joinSlash, e2, eBr]
      simp [List.append_assoc]

/-- C7: for every valid configuration, `getSortedValidResponses` is an
ascending permutation of the response-map keys, and `PrintPrompt` emits
exactly the prompt, `? (`, the bracketed default followed by `/` when one
is configured, the remaining valid runes in ascending order separated by
`/`, then `/?` for the help rune and `): `. -/
theorem claim_C7 :
    ∀ (r : R), ValidR r →
      List.Sorted (· ≤ ·) (getSortedValidResponses r) ∧
      (getSortedValidResponses r).Perm (keysOf r.validResps) ∧
      PrintPrompt r =
        r.prompt ++ strOf ("? (") ++
        (if r.hasDflt then strOf ("[") ++ [r.dflt] ++ strOf ("]/") else []) ++
        joinSlash (remainingRunes r) ++ strOf ("/?): ") := by
  intro r hv
  refine ⟨List.sorted_insertionSort _ _, List.perm_insertionSort _ _, ?_⟩
  unfold PrintPrompt
  rw [printValidResponses_eq r hv]
  rw [show strOf ("? (") = strOf ("? ") ++ strOf ("(") from by decide]
  simp [List.append_assoc]

/-- Witness for C7: the two `Delete File` examples of the repository, with
and without the default, rendered byte for byte. -/
theorem claim_C7_witness :
    ValidR exampleDflt ∧ ValidR exampleNoDflt ∧
    PrintPrompt exampleDflt = strOf ("Delete File? ([y]/n/?): ") ∧
    PrintPrompt exampleNoDflt = strOf ("Delete File? (n/y/?): ") := by
  refine ⟨by decide, by decide, ?_, ?_⟩
  · exact ((claim_C7 exampleDflt (by decide)).2.2).trans (by decide)
  · exact ((claim_C7 exampleNoDflt (by decide)).2.2).trans (by decide)
